import Mathlib

/-!
Shallow embedding of the visual diff engine of `server.js` (design-reference
vs. screenshot comparison server): URL reference parsing, the cache / retry
infrastructure, nearest-neighbor resampling, and the block-based region
analyzer, together with theorems settling the specification claims.

Modelling conventions (JavaScript → Lean):
* byte buffers (`Buffer` / `Uint8Array`) are modelled as a total function
  `Nat → Nat` plus an explicit `dataLen` field mirroring `data.length`; the
  code only ever reads buffers by index, and reads it performs are shown
  in bounds for well-formed images;
* JS numbers holding integer pixel coordinates and areas are `Int`
  (clipping uses `Math.max`/`Math.min` over possibly-negative values);
* the per-pixel average comparison `(r+g+b)/3 > t` and the block mismatch
  fraction comparison `d/total > 0.05` are evaluated by the exact integer
  cross-multiplications `r+g+b > 3*t` and `d*den > num*total`; on the
  reachable operand ranges (sums ≤ 765, block pixel counts ≤ 400) the JS
  double computations agree exactly with the rational values, so no float
  model is needed there; the `diffScore` fraction itself is kept in `ℚ`;
  the resampler's `Math.floor(x * (srcDim/dstDim))`, by contrast, is
  genuinely rounding-sensitive and is modelled bit-exactly (see the
  `resizeImage` section);
* `Array.prototype.sort` (stable, consistent comparator) is modelled by a
  stable insertion sort over the same comparator.
-/

namespace VDiff

/-- A decoded raster image: `pngjs`-style object with `width`, `height` and an
RGBA byte buffer. The buffer is a total function together with its length. -/
structure Img where
  width : Nat
  height : Nat
  dataLen : Nat
  data : Nat → Nat

/-- Pixel-coordinate rectangle of an issue (JS numbers, so `Int`). -/
structure Region where
  x : Int
  y : Int
  width : Int
  height : Int
deriving DecidableEq

/-- One reported difference issue, as built by `analyzeImageDifferences`. -/
structure Issue where
  id : String
  type : String
  message : String
  severity : String
  region : Region
deriving DecidableEq

/-- One row of the sensitivity configuration table in
`analyzeImageDifferences`. The fractional `blockThreshold` (0.20, 0.10,
0.05, 0.02, 0.01) is carried as the exact pair
`blockThresholdNum / blockThresholdDen`, since the comparisons it takes
part in are evaluated by cross-multiplication. -/
structure Config where
  pixelDiffThreshold : Nat
  blockThresholdNum : Nat
  blockThresholdDen : Nat
  minArea : Int
deriving DecidableEq

/-- Requested frame dimensions (`dimensions` argument of
`performComparison`). -/
structure Dims where
  width : Nat
  height : Nat

/-- The pure fields of the object returned by `performComparison`. -/
structure CompareResult where
  diffScore : ℚ
  resolutionW : Nat
  resolutionH : Nat
  issues : List Issue

/- ------------------------------------------------------------------ -/
/- `parseFigmaUrl` (server.js lines 100–115)                           -/
/- ------------------------------------------------------------------ -/

/-- The outcome of the platform `new URL(urlStr)` parse that
`parseFigmaUrl` consumes: the pathname and the query parameters in order.
`parseFigmaUrl` receives `none` exactly when `new URL` throws. -/
structure URLParts where
  pathname : String
  searchParams : List (String × String)

/-- `split` on a single-character separator, at the character-list level:
the JS `"a/b".split('/')` semantics (an empty input yields `[""]`, leading,
trailing and repeated separators yield empty fields). -/
def splitOnCharList (sep : Char) : List Char → List (List Char)
  | [] => [[]]
  | c :: cs =>
    let r := splitOnCharList sep cs
    if c = sep then [] :: r
    else
      match r with
      | [] => [[c]]
      | h :: t => (c :: h) :: t

/-- `pathname.split('/')`-style splitting of a string on one character. -/
def splitOnChar (s : String) (sep : Char) : List String :=
  (splitOnCharList sep s.data).map (fun l => String.mk l)

/-- JS `s.replace(/a/g, b)` for a single-character pattern: replace every
occurrence of the character `a` by `b`. -/
def replaceAllChar (s : String) (a b : Char) : String :=
  String.mk (s.data.map (fun ch => if ch = a then b else ch))

/-- `parseFigmaUrl`: split the pathname on `/` and take index 2 (JS
`pathParts[2] || null`, so an empty segment also yields `null`); read the
`node-id` query parameter and, when truthy, replace every `-` by `:`.
An unparsable URL (the `catch` branch) yields `(none, none)`. -/
def parseFigmaUrl (u : Option URLParts) : Option String × Option String :=
  match u with
  | none => (none, none)
  | some url =>
    let pathParts := splitOnChar url.pathname '/'
    let fileKey : Option String :=
      match pathParts[2]? with
      | some s => if s = "" then none else some s
      | none => none
    let nodeId : Option String :=
      match url.searchParams.lookup "node-id" with
      | some s => if s = "" then some s else some (replaceAllChar s '-' ':')
      | none => none
    (fileKey, nodeId)

/-- Spec-side description of `parseReference` (§4.4), amended where the code
differs: the fileKey is the element at index 2 of the `/`-split pathname
(absent or empty ⇒ `none`), the nodeId is the `node-id` parameter with
hyphens turned into colons (absent ⇒ `none`), and both are `none` when the
URL itself is unparsable; a missing piece nulls only itself. -/
def specParseReference (u : Option URLParts) : Option String × Option String :=
  match u with
  | none => (none, none)
  | some url =>
    ((splitOnChar url.pathname '/')[2]?.bind
       (fun s => if s.isEmpty then none else some s),
     (url.searchParams.lookup "node-id").map
       (fun s => if s.isEmpty then s else replaceAllChar s '-' ':'))

/- ------------------------------------------------------------------ -/
/- `retryWithBackoff` (server.js lines 69–98)                          -/
/- ------------------------------------------------------------------ -/

/-- Errors observable by `retryWithBackoff`: a `RateLimitError` carrying
`retryAfter` milliseconds, or a generic `Error` with its message. -/
inductive JsError where
  | rateLimit (retryAfterMs : Int)
  | generic (message : String)
deriving DecidableEq

instance {ε α : Type} [DecidableEq ε] [DecidableEq α] : DecidableEq (Except ε α) :=
  fun a b =>
    match a, b with
    | .ok x, .ok y => decidable_of_iff (x = y) (by simp)
    | .error x, .error y => decidable_of_iff (x = y) (by simp)
    | .ok _, .error _ => isFalse (by simp)
    | .error _, .ok _ => isFalse (by simp)

/-- Whether `sub` occurs as a contiguous run inside `l`. -/
def listHasInfix [DecidableEq α] (sub : List α) : List α → Bool
  | [] => sub.isEmpty
  | a :: as => sub.isPrefixOf (a :: as) || listHasInfix sub as

/-- JS `String.prototype.includes`: `s` contains `sub` as a substring. -/
def stringIncludes (s sub : String) : Bool :=
  listHasInfix sub.data s.data

/-- The retry loop of `retryWithBackoff`, with the attempt outcomes supplied
as a function of the (0-indexed) attempt number, the remaining attempt
budget as structural fuel, and the performed sleeps (in ms) returned as a
trace. `i` is the current attempt index, `lastError` the saved error. -/
def retryGo (fn : Nat → Except JsError α) (initialDelay : Nat) :
    (i : Nat) → (remaining : Nat) → (lastError : Option JsError) →
    List Int × Except JsError α
  | _, 0, lastError =>
    ([], .error (lastError.getD (.generic "Max retries exceeded")))
  | i, remaining + 1, _ =>
    match fn i with
    | .ok v => ([], .ok v)
    | .error e =>
      match e with
      | .rateLimit ra =>
        let waitTime : Int := if ra < 1000 then ((initialDelay * 2 ^ i : Nat) : Int) else ra
        let rest := retryGo fn initialDelay (i + 1) remaining (some e)
        (waitTime :: rest.1, rest.2)
      | .generic msg =>
        if stringIncludes msg "429" then
          let delayMs : Int := ((initialDelay * 2 ^ i : Nat) : Int)
          let rest := retryGo fn initialDelay (i + 1) remaining (some e)
          (delayMs :: rest.1, rest.2)
        else ([], .error e)

/-- `retryWithBackoff(fn)` with its default arguments
(`maxRetries = 5`, `initialDelay = 2000`). -/
def retryWithBackoff (fn : Nat → Except JsError α) : List Int × Except JsError α :=
  retryGo fn 2000 0 5 none

/- ------------------------------------------------------------------ -/
/- `getCached` (server.js lines 56–67)                                 -/
/- ------------------------------------------------------------------ -/

/-- A cache entry as stored by `getCached`. -/
structure CacheEntryRec (α : Type) where
  data : α
  timestamp : Int
deriving DecidableEq

/-- `cache.set key e` on the in-memory `Map`, modelled on an association
list (replace any previous binding of `key`). -/
def cacheSet (cache : List (String × CacheEntryRec α)) (key : String)
    (e : CacheEntryRec α) : List (String × CacheEntryRec α) :=
  (key, e) :: cache.filter (fun p => decide (p.1 ≠ key))

/-- `getCached(key, fetcher, ttl)` at instant `now`, with the cache map
threaded explicitly and the fetcher's outcome supplied as an `Except`.
Returns the produced value (or the propagated error) and the cache state
after the call. -/
def getCached (cache : List (String × CacheEntryRec α)) (key : String)
    (fetcher : Except ε α) (ttl : Int) (now : Int) :
    Except ε α × List (String × CacheEntryRec α) :=
  match cache.lookup key with
  | some entry =>
    if now - entry.timestamp < ttl then (.ok entry.data, cache)
    else
      match fetcher with
      | .ok v => (.ok v, cacheSet cache key ⟨v, now⟩)
      | .error e => (.error e, cache)
  | none =>
    match fetcher with
    | .ok v => (.ok v, cacheSet cache key ⟨v, now⟩)
    | .error e => (.error e, cache)

/-- The cache TTL constant (15 minutes in ms). -/
def CACHE_TTL : Int := 15 * 60 * 1000

/- ------------------------------------------------------------------ -/
/- `resizeImage` (server.js lines 200–221)                             -/
/- ------------------------------------------------------------------ -/

/-
The resampler's source coordinate is `Math.floor(x * scaleX)` with
`scaleX = png.width / targetWidth` computed in IEEE binary64, and the
double results differ from the exact integer floor `x * srcW / tw` at
reachable sizes (e.g. srcW = 122, tw = 14, x = 7 reads column 60 while the
exact floor is 61). The two rounded operations are therefore modelled
bit-exactly: a correctly rounded (round-to-nearest, ties-to-even) division
and multiplication on values `m * 2^e`, carried out in integer arithmetic.
The model ignores overflow and subnormals, which is exact for the
magnitudes image dimensions can take (both operands ≤ 2^20 keeps every
intermediate value well inside the normal binary64 range).
-/

/-- Bit length of `n` (`⌊log2 n⌋ + 1` for `n ≥ 1`), with explicit fuel so
that it evaluates in the kernel; `bitlen` instantiates the fuel with `n`
itself, which always suffices. -/
def bitlenAux : Nat → Nat → Nat
  | 0, _ => 0
  | fuel + 1, n => if n = 0 then 0 else bitlenAux fuel (n / 2) + 1

/-- Bit length of a natural number. -/
def bitlen (n : Nat) : Nat := bitlenAux n n

/-- Round `p / q` (`q ≥ 1`) to the nearest integer, ties to even. -/
def rne (p q : Nat) : Nat :=
  let n := p / q
  let r := p % q
  if 2 * r < q then n
  else if q < 2 * r then n + 1
  else if n % 2 = 0 then n else n + 1

/-- A nonnegative binary64 value `m * 2^e` (`m = 0` encodes zero; after a
correctly rounded operation `2^52 ≤ m ≤ 2^53`). -/
structure FP where
  m : Nat
  e : Int
deriving DecidableEq

/-- The exact rational value of an `FP`. -/
def FP.val (f : FP) : ℚ :=
  if 0 ≤ f.e then (f.m : ℚ) * 2 ^ f.e.toNat else (f.m : ℚ) / 2 ^ (-f.e).toNat

/-- Decide `2^d ≤ p / q` by clearing the power to the integer side. -/
def pow2LE (p q : Nat) (d : Int) : Bool :=
  if 0 ≤ d then decide (q * 2 ^ d.toNat ≤ p) else decide (q ≤ p * 2 ^ (-d).toNat)

/-- `⌊log2 (p / q)⌋` for `p, q ≥ 1`: the bit-length difference, corrected
down by one when `p / q` falls short of `2^d`. -/
def flK (p q : Nat) : Int :=
  let d : Int := (bitlen p : Int) - (bitlen q : Int)
  if pow2LE p q d then d else d - 1

/-- Correctly rounded binary64 division `p / q` (`q ≥ 1`): normalize the
quotient into `[2^52, 2^53)` and round the 53-bit mantissa to nearest, ties
to even. Models the JS `png.width / targetWidth`. -/
def flRat (p q : Nat) : FP :=
  if p = 0 then ⟨0, 0⟩
  else
    let e : Int := flK p q - 52
    let m := if 0 ≤ e then rne p (q * 2 ^ e.toNat) else rne (p * 2 ^ (-e).toNat) q
    ⟨m, e⟩

/-- Correctly rounded binary64 product of a (small) integer and a double:
the exact integer product of the mantissas is rounded back to 53 bits.
Models the JS `x * scaleX`. -/
def flMulNat (x : Nat) (f : FP) : FP :=
  if x = 0 ∨ f.m = 0 then ⟨0, 0⟩
  else
    let X := x * f.m
    let e2 : Int := (bitlen X : Int) - 53
    let m2 := if 0 ≤ e2 then rne X (2 ^ e2.toNat) else X * 2 ^ (-e2).toNat
    ⟨m2, f.e + e2⟩

/-- `Math.floor` of a nonnegative double. -/
def fpFloor (f : FP) : Nat :=
  if 0 ≤ f.e then f.m * 2 ^ f.e.toNat else f.m / 2 ^ (-f.e).toNat

/-- The source coordinate `Math.floor(x * (srcDim / dstDim))` computed by
`resizeImage`, in exact binary64 semantics. -/
def jsSrcCoord (x srcDim dstDim : Nat) : Nat :=
  fpFloor (flMulNat x (flRat srcDim dstDim))

/-- The source buffer index `srcIdx = (srcY * png.width + srcX) * 4` read by
`resizeImage` for destination pixel `(x, y)`, with
`srcX = Math.floor(x * (srcW / tw))` and `srcY = Math.floor(y * (srcH / th))`
computed in doubles (`jsSrcCoord`); the index arithmetic itself is exact at
these magnitudes. -/
def resizeSrcIdx (srcW srcH tw th x y : Nat) : Nat :=
  (jsSrcCoord y srcH th * srcW + jsSrcCoord x srcW tw) * 4

/-- `resizeImage(png, targetWidth, targetHeight)`: the identity when the
dimensions already match, otherwise nearest-neighbor resampling. The fresh
`new PNG` buffer (length `4 * tw * th`, zero-filled) receives, at
`dstIdx = (y * tw + x) * 4 + c`, the source byte at `resizeSrcIdx … + c`;
the buffer function recovers `(x, y, c)` from the destination index. -/
def resizeImage (png : Img) (tw th : Nat) : Img :=
  if png.width = tw ∧ png.height = th then png
  else
    { width := tw, height := th, dataLen := 4 * tw * th,
      data := fun idx =>
        if idx < 4 * tw * th then
          png.data (resizeSrcIdx png.width png.height tw th (idx / 4 % tw) (idx / 4 / tw) + idx % 4)
        else 0 }

/- ------------------------------------------------------------------ -/
/- `analyzeImageDifferences` (server.js lines 223–380)                 -/
/- ------------------------------------------------------------------ -/

/-- Block size for detection. -/
def BLOCK_SIZE : Nat := 20

/-- The sensitivity configuration table (1x low … 5x high), with the
`|| {pixelDiffThreshold: 25, blockThreshold: 0.05, minArea: 100}` fallback
for unrecognized levels. -/
def sensitivityConfig (s : Nat) : Config :=
  if s = 1 then ⟨50, 1, 5, 500⟩
  else if s = 2 then ⟨35, 1, 10, 250⟩
  else if s = 3 then ⟨25, 1, 20, 100⟩
  else if s = 4 then ⟨15, 1, 50, 50⟩
  else if s = 5 then ⟨5, 1, 100, 10⟩
  else ⟨25, 1, 20, 100⟩

/-- The per-pixel channel-difference sum `rDiff + gDiff + bDiff` at buffer
index `idx`, each channel difference being `Math.abs(screenshot - figma)`.
The source compares `(rDiff + gDiff + bDiff) / 3 > pixelDiffThreshold`;
that comparison is evaluated on this sum as `sum > 3 * pixelDiffThreshold`,
which is exactly equivalent (the double division by the constant 3 cannot
cross an integer boundary on sums ≤ 765). -/
def pixelDiffSum (s f : Img) (idx : Nat) : Nat :=
  let rDiff := ((s.data idx : Int) - (f.data idx : Int)).natAbs
  let gDiff := ((s.data (idx + 1) : Int) - (f.data (idx + 1) : Int)).natAbs
  let bDiff := ((s.data (idx + 2) : Int) - (f.data (idx + 2) : Int)).natAbs
  rDiff + gDiff + bDiff

/-- The diffPixels/totalPixels tally of one detection block: pixels whose
`idx + 2` reaches past `screenshot.data.length` are skipped entirely
(the `continue`), the rest count toward `totalPixels` and, when the pixel
difference exceeds the threshold, toward `diffPixels`. -/
def blockCounts (s f : Img) (width : Nat) (cfg : Config)
    (startX endX startY endY : Nat) : Nat × Nat :=
  (List.range' startY (endY - startY)).foldl (fun acc y =>
    let rowOffset := y * width
    (List.range' startX (endX - startX)).foldl (fun acc2 x =>
      let idx := (rowOffset + x) * 4
      if s.dataLen ≤ idx + 2 then acc2
      else
        ((if 3 * cfg.pixelDiffThreshold < pixelDiffSum s f idx then acc2.1 + 1 else acc2.1),
         acc2.2 + 1)) acc) (0, 0)

/-- Whether detection block `(bx, bY)` is marked active: clip the block to
the image bounds, tally its pixels, and require
`totalPixels > 0 && diffPixels / totalPixels > blockThreshold`. The
fraction comparison is evaluated by cross-multiplication
(`diffPixels * den > num * totalPixels`), exactly equivalent for the
positive denominators and the block pixel counts (≤ 400) that occur. -/
def blockActive (s f : Img) (width height : Nat) (cfg : Config) (bx bY : Nat) : Bool :=
  let startX := bx * BLOCK_SIZE
  let startY := bY * BLOCK_SIZE
  let endX := min (startX + BLOCK_SIZE) width
  let endY := min (startY + BLOCK_SIZE) height
  let c := blockCounts s f width cfg startX endX startY endY
  decide (0 < c.2 ∧ cfg.blockThresholdNum * c.2 < c.1 * cfg.blockThresholdDen)

/-- A cluster bounding box in block coordinates; `none` models the JS
`Infinity` / `-Infinity` initial values. -/
structure Cluster where
  minX : Option Nat
  minY : Option Nat
  maxX : Option Nat
  maxY : Option Nat
  blockCount : Nat
deriving DecidableEq

/-- The freshly initialized cluster record. -/
def emptyCluster : Cluster := ⟨none, none, none, none, 0⟩

/-- `Math.min` against an `Infinity`-initialized accumulator. -/
def optMin (o : Option Nat) (v : Nat) : Nat :=
  match o with
  | none => v
  | some m => min m v

/-- `Math.max` against a `-Infinity`-initialized accumulator. -/
def optMax (o : Option Nat) (v : Nat) : Nat :=
  match o with
  | none => v
  | some m => max m v

/-- Push the in-bounds, active, unvisited neighbors of block `(cx, cy)` in
the source's Right/Left/Down/Up order, marking each one visited as it is
pushed. The stack's head is its top (JS `push`/`pop` work at the array
end, so the last neighbor pushed is popped first). -/
def pushNeighbors (active : Nat → Bool) (bXn bYn cx cy : Nat)
    (st : List Nat × (Nat → Bool)) : List Nat × (Nat → Bool) :=
  [((cx : Int) + 1, (cy : Int)), ((cx : Int) - 1, (cy : Int)),
   ((cx : Int), (cy : Int) + 1), ((cx : Int), (cy : Int) - 1)].foldl
    (fun acc n =>
      if 0 ≤ n.1 ∧ n.1 < (bXn : Int) ∧ 0 ≤ n.2 ∧ n.2 < (bYn : Int) then
        let nIdx := (n.2 * (bXn : Int) + n.1).toNat
        if active nIdx && ! acc.2 nIdx then
          (nIdx :: acc.1, fun j => if j = nIdx then true else acc.2 j)
        else acc
      else acc) st

/-- The `while (stack.length > 0)` flood-fill loop: pop the top block,
fold it into the cluster bounds, push its eligible neighbors. The fuel
argument bounds the iterations (each block is pushed at most once, so
`blocksX * blocksY + 1` fuel always suffices to drain the stack). -/
def floodStep (active : Nat → Bool) (bXn bYn : Nat) :
    Nat → List Nat → (Nat → Bool) → Cluster → Cluster × (Nat → Bool)
  | _, [], visited, cl => (cl, visited)
  | 0, _ :: _, visited, cl => (cl, visited)
  | fuel + 1, currIdx :: rest, visited, cl =>
    let cx := currIdx % bXn
    let cy := currIdx / bXn
    let cl' : Cluster :=
      { minX := some (optMin cl.minX cx), minY := some (optMin cl.minY cy),
        maxX := some (optMax cl.maxX cx), maxY := some (optMax cl.maxY cy),
        blockCount := cl.blockCount + 1 }
    let st := pushNeighbors active bXn bYn cx cy (rest, visited)
    floodStep active bXn bYn fuel st.1 st.2 cl'

/-- The connected-components pass: scan all block indices in order; each
active, unvisited index seeds a flood fill whose cluster is appended, the
visited array being shared across the scan. -/
def clustersFromActive (active : Nat → Bool) (bXn bYn : Nat) : List Cluster :=
  let total := bXn * bYn
  ((List.range total).foldl (fun (acc : List Cluster × (Nat → Bool)) i =>
    if active i && ! acc.2 i then
      let visited1 : Nat → Bool := fun j => if j = i then true else acc.2 j
      let r := floodStep active bXn bYn (total + 1) [i] visited1 emptyCluster
      (acc.1 ++ [r.1], r.2)
    else acc) ([], fun _ => false)).1

/-- The severity rank object `{ High: 3, Medium: 2, Low: 1 }`. -/
def sevScore (s : String) : Int :=
  if s = "High" then 3 else if s = "Medium" then 2 else 1

/-- The sort comparator: descending severity rank, then descending clipped
region area. -/
def issueCmp (a b : Issue) : Int :=
  if sevScore a.severity ≠ sevScore b.severity then
    sevScore b.severity - sevScore a.severity
  else
    b.region.width * b.region.height - a.region.width * a.region.height

/-- Insert into a sorted list, keeping `a` before the first element it need
not follow (the stable position). -/
def sortInsert (cmp : α → α → Int) (a : α) : List α → List α
  | [] => [a]
  | b :: l => if cmp a b ≤ 0 then a :: b :: l else b :: sortInsert cmp a l

/-- Stable insertion sort by a JS-style numeric comparator; models
`Array.prototype.sort` (stable per the language spec) for the consistent
comparator used here. -/
def sortByCmp (cmp : α → α → Int) : List α → List α
  | [] => []
  | a :: l => sortInsert cmp a (sortByCmp cmp l)

/-- Turn cluster number `index` into an issue: convert the block-range to
pixel coordinates, clip to the image, drop areas below `minArea`, and
classify severity and type from the clipped area. -/
def clusterToIssue (width height : Nat) (cfg : Config) (index : Nat)
    (cl : Cluster) : Option Issue :=
  if cl.blockCount < 1 then none
  else
    let x : Int := ((cl.minX.getD 0 * BLOCK_SIZE : Nat) : Int)
    let y : Int := ((cl.minY.getD 0 * BLOCK_SIZE : Nat) : Int)
    let w : Int := ((cl.maxX.getD 0 : Int) - (cl.minX.getD 0 : Int) + 1) * (BLOCK_SIZE : Int)
    let h : Int := ((cl.maxY.getD 0 : Int) - (cl.minY.getD 0 : Int) + 1) * (BLOCK_SIZE : Int)
    let finalX : Int := max 0 x
    let finalY : Int := max 0 y
    let finalW : Int := min w ((width : Int) - finalX)
    let finalH : Int := min h ((height : Int) - finalY)
    let area := finalW * finalH
    if area < cfg.minArea then none
    else
      let severity : String :=
        if 50000 < area then "High" else if 10000 < area then "Medium" else "Low"
      let ty : String := if area < 1000 then "Color" else "Layout"
      some { id := "diff-cluster-" ++ toString index,
             type := ty,
             message := "Difference detected in " ++ toString finalW ++ "x"
               ++ toString finalH ++ " region",
             severity := severity,
             region := { x := finalX, y := finalY, width := finalW, height := finalH } }

/-- `analyzeImageDifferences(screenshot, figma, width, height, sensitivity)`:
mark active blocks, cluster them by 4-connectivity, emit classified issues,
and return the top 20 by (severity rank, area). -/
def analyzeImageDifferences (screenshot figma : Img) (width height : Nat)
    (sensitivity : Nat) : List Issue :=
  let cfg := sensitivityConfig sensitivity
  let blocksX := (width + BLOCK_SIZE - 1) / BLOCK_SIZE
  let blocksY := (height + BLOCK_SIZE - 1) / BLOCK_SIZE
  let active : Nat → Bool := fun i =>
    blockActive screenshot figma width height cfg (i % blocksX) (i / blocksX)
  let clusters := clustersFromActive active blocksX blocksY
  let issues := clusters.enum.filterMap (fun p => clusterToIssue width height cfg p.1 p.2)
  (sortByCmp issueCmp issues).take 20

/- ------------------------------------------------------------------ -/
/- `performComparison` (server.js lines 382–484), pure core            -/
/- ------------------------------------------------------------------ -/

/-- The pixelmatch threshold table of `performComparison`
(1x → 0.9 loose … 5x → 0.1 strict, `|| 0.5` fallback). -/
def pixelmatchThresholdFor (s : Nat) : ℚ :=
  if s = 1 then 9/10
  else if s = 2 then 7/10
  else if s = 3 then 1/2
  else if s = 4 then 3/10
  else if s = 5 then 1/10
  else 1/2

/-- Modelled from the spec: the `pixelmatch` npm routine called on line 455
is not part of this repository. Per §4.6 of the spec it classifies each of
the `width × height` pixels as match/mismatch under an anti-aliasing-
tolerant tolerance and returns the mismatch count, with count 0 on
pixel-identical inputs. Modelled as counting the pixels whose RGBA
quadruples differ (the tolerance can only reclassify differing pixels as
matches, and no pixel of identical buffers ever mismatches). -/
def pixelmatchCount (a b : Nat → Nat) (width height : Nat) (_threshold : ℚ) : Nat :=
  (List.range (width * height)).countP (fun p =>
    decide (¬ (a (4 * p) = b (4 * p) ∧ a (4 * p + 1) = b (4 * p + 1) ∧
               a (4 * p + 2) = b (4 * p + 2) ∧ a (4 * p + 3) = b (4 * p + 3))))

/-- The pure comparison core of `performComparison`, from the decoded
images on: clamp the compared size to the component-wise minimum of the two
decoded sizes and the requested dimensions, resample both inputs, score the
global diff, and run the region analyzer. -/
def performComparisonCore (screenshotPng figmaPng : Img) (dims : Dims)
    (sensitivity : Nat) : CompareResult :=
  let width := min (min screenshotPng.width figmaPng.width) dims.width
  let height := min (min screenshotPng.height figmaPng.height) dims.height
  let resizedScreenshot := resizeImage screenshotPng width height
  let resizedFigma := resizeImage figmaPng width height
  let diffPixels := pixelmatchCount resizedScreenshot.data resizedFigma.data width height
    (pixelmatchThresholdFor sensitivity)
  { diffScore := (diffPixels : ℚ) / ((width * height : Nat) : ℚ),
    resolutionW := width, resolutionH := height,
    issues := analyzeImageDifferences resizedScreenshot resizedFigma width height sensitivity }

/- ------------------------------------------------------------------ -/
/- Concrete inputs used by the scenario claims and witnesses           -/
/- ------------------------------------------------------------------ -/

/-- 100×100 solid white RGBA image. -/
def whiteImg : Img := ⟨100, 100, 40000, fun _ => 255⟩

/-- 100×100 image that is white except for a black 30×30 block in the
top-left corner (alpha everywhere 255). -/
def cornerImg : Img :=
  ⟨100, 100, 40000, fun idx =>
    if idx % 4 = 3 then 255
    else if idx / 4 % 100 < 30 ∧ idx / 4 / 100 < 30 then 0 else 255⟩

/-- 20×20 solid white RGBA image. -/
def white20 : Img := ⟨20, 20, 1600, fun _ => 255⟩

/-- 20×20 solid black RGBA image (alpha 255). -/
def black20 : Img := ⟨20, 20, 1600, fun idx => if idx % 4 = 3 then 255 else 0⟩

/-- 1×1 black RGBA image. -/
def unitImg : Img := ⟨1, 1, 4, fun idx => if idx % 4 = 3 then 255 else 0⟩

/-- 2×1 image whose byte at index `i` is `i` (distinct bytes per cell). -/
def stripeImg : Img := ⟨2, 1, 8, fun idx => idx % 8⟩

/-- 122×1 image whose every byte holds its pixel's column number. -/
def img122 : Img := ⟨122, 1, 488, fun idx => idx / 4⟩

/-- 1×1 black RGBA image with alpha 7: differs from `unitImg` only in the
alpha byte. -/
def unitImgA : Img := ⟨1, 1, 4, fun idx => if idx % 4 = 3 then 7 else 0⟩

/-- The single issue produced by comparing `white20` with `black20` at
sensitivity 3. -/
def issueW20 : Issue :=
  { id := "diff-cluster-0", type := "Color",
    message := "Difference detected in 20x20 region", severity := "Low",
    region := { x := 0, y := 0, width := 20, height := 20 } }

/-- The single issue produced by comparing `whiteImg` with `cornerImg` at
sensitivity 3: the 30×30 corner rounded up to the 20-px block grid. -/
def issue100 : Issue :=
  { id := "diff-cluster-0", type := "Layout",
    message := "Difference detected in 40x40 region", severity := "Low",
    region := { x := 0, y := 0, width := 40, height := 40 } }

/-- The ordering the issue list is claimed to be sorted by: strictly higher
severity rank first, ties broken by descending clipped region area. -/
def IssueOrdered (a b : Issue) : Prop :=
  sevScore b.severity < sevScore a.severity ∨
    (sevScore a.severity = sevScore b.severity ∧
      b.region.width * b.region.height ≤ a.region.width * a.region.height)

/- ================================================================== -/
/- Theorems                                                            -/
/- ================================================================== -/

/-- **C2, counterexample.** The claim requires `parseFigmaUrl` to return
`null` for *both* pieces whenever either piece is missing. On a design URL
whose `node-id` query parameter is absent, the code nevertheless returns
the extracted fileKey, so the pair is not `(none, none)`. -/
theorem parseFigmaUrl_both_null_fails :
    parseFigmaUrl (some ⟨"/design/ABC123/Name", []⟩) ≠ (none, none) := by
  decide

/-- **C2, amended.** `parseFigmaUrl` extracts the element at index 2 of the
`/`-split pathname as fileKey (`none` when absent or empty) and the
`node-id` parameter with every `-` replaced by `:` as nodeId (`none` when
absent); both are `none` when the URL is unparsable, and a missing piece
nulls only itself. In particular the spec scenario
`.../design/ABC123/Name?node-id=10-20 ↦ ("ABC123", "10:20")` holds. -/
theorem parseFigmaUrl_amended :
    (∀ u, parseFigmaUrl u = specParseReference u) ∧
    parseFigmaUrl (some ⟨"/design/ABC123/Name", [("node-id", "10-20")]⟩) =
      (some "ABC123", some "10:20") := by
  refine ⟨fun u => ?_, by decide⟩
  cases u with
  | none => rfl
  | some url =>
    simp only [parseFigmaUrl, specParseReference]
    refine congrArg₂ Prod.mk ?_ ?_
    · cases h : (splitOnChar url.pathname '/')[2]? with
      | none => simp [h]
      | some s =>
        simp only [h, Option.bind_some]
        by_cases hs : s = "" <;> simp [hs, String.isEmpty_iff]
    · cases h : url.searchParams.lookup "node-id" with
      | none => simp [h]
      | some s =>
        simp only [h, Option.map_some]
        by_cases hs : s = "" <;> simp [hs, String.isEmpty_iff]

/-- **C3.** One step of the retry loop at failing attempt `i` (0-indexed),
with `baseDelay = 2000` and at least one attempt remaining: a RateLimited
error carrying `ra ≥ 1000` sleeps exactly `ra` before the next attempt; a
carried `ra < 1000`, or a generic error whose message contains `429`,
sleeps `2000 * 2 ^ i`; any other error propagates at once, with no sleep
and no further attempt. -/
theorem retryWithBackoff_policy {α : Type} (fn : Nat → Except JsError α)
    (i r : Nat) (last : Option JsError) :
    (∀ ra : Int, fn i = .error (.rateLimit ra) → 1000 ≤ ra →
        retryGo fn 2000 i (r + 1) last =
          (ra :: (retryGo fn 2000 (i + 1) r (some (.rateLimit ra))).1,
           (retryGo fn 2000 (i + 1) r (some (.rateLimit ra))).2)) ∧
    (∀ ra : Int, fn i = .error (.rateLimit ra) → ra < 1000 →
        retryGo fn 2000 i (r + 1) last =
          (((2000 * 2 ^ i : Nat) : Int) ::
             (retryGo fn 2000 (i + 1) r (some (.rateLimit ra))).1,
           (retryGo fn 2000 (i + 1) r (some (.rateLimit ra))).2)) ∧
    (∀ msg, fn i = .error (.generic msg) → stringIncludes msg "429" = true →
        retryGo fn 2000 i (r + 1) last =
          (((2000 * 2 ^ i : Nat) : Int) ::
             (retryGo fn 2000 (i + 1) r (some (.generic msg))).1,
           (retryGo fn 2000 (i + 1) r (some (.generic msg))).2)) ∧
    (∀ msg, fn i = .error (.generic msg) → stringIncludes msg "429" = false →
        retryGo fn 2000 i (r + 1) last = ([], .error (.generic msg))) := by
  refine ⟨fun ra h hge => ?_, fun ra h hlt => ?_, fun msg h h429 => ?_,
    fun msg h h429 => ?_⟩
  · simp only [retryGo, h, if_neg (not_lt.mpr hge)]
  · simp only [retryGo, h, if_pos hlt]
  · simp only [retryGo, h, h429, if_pos trivial, if_true]
  · simp only [retryGo, h, h429, Bool.false_eq_true, if_false]

/-- **C3, witness.** Concrete runs of the three backoff branches and the
immediate-propagation branch, at attempt 0 with 5 attempts remaining. -/
theorem retryWithBackoff_policy_witness :
    (retryGo (fun _ => Except.error (α := Unit) (JsError.rateLimit 5000)) 2000 0 5 none =
      (5000 :: (retryGo (fun _ => Except.error (α := Unit) (JsError.rateLimit 5000)) 2000 1 4
          (some (JsError.rateLimit 5000))).1,
       (retryGo (fun _ => Except.error (α := Unit) (JsError.rateLimit 5000)) 2000 1 4
          (some (JsError.rateLimit 5000))).2)) ∧
    (retryGo (fun _ => Except.error (α := Unit) (JsError.rateLimit 700)) 2000 0 5 none =
      (((2000 * 2 ^ 0 : Nat) : Int) ::
         (retryGo (fun _ => Except.error (α := Unit) (JsError.rateLimit 700)) 2000 1 4
            (some (JsError.rateLimit 700))).1,
       (retryGo (fun _ => Except.error (α := Unit) (JsError.rateLimit 700)) 2000 1 4
          (some (JsError.rateLimit 700))).2)) ∧
    (retryGo (fun _ => Except.error (α := Unit) (JsError.generic "Figma API error 429: Rate limit exceeded"))
        2000 0 5 none =
      (((2000 * 2 ^ 0 : Nat) : Int) ::
         (retryGo (fun _ => Except.error (α := Unit) (JsError.generic "Figma API error 429: Rate limit exceeded"))
            2000 1 4 (some (JsError.generic "Figma API error 429: Rate limit exceeded"))).1,
       (retryGo (fun _ => Except.error (α := Unit) (JsError.generic "Figma API error 429: Rate limit exceeded"))
          2000 1 4 (some (JsError.generic "Figma API error 429: Rate limit exceeded"))).2)) ∧
    (retryGo (fun _ => Except.error (α := Unit) (JsError.generic "boom")) 2000 0 5 none =
      ([], .error (.generic "boom"))) :=
  ⟨(retryWithBackoff_policy _ 0 4 none).1 5000 rfl (by decide),
   (retryWithBackoff_policy _ 0 4 none).2.1 700 rfl (by decide),
   (retryWithBackoff_policy _ 0 4 none).2.2.1 _ rfl (by decide),
   (retryWithBackoff_policy _ 0 4 none).2.2.2 _ rfl (by decide)⟩

/-- **C4.** `getCached`: on a fresh hit (`now - timestamp < ttl`) it returns
the cached value and leaves the cache unchanged, for *every* fetcher (so the
fetcher is not consulted); otherwise it runs the fetcher, stores
`{data, timestamp := now}` under the key and returns the value; a fetcher
failure propagates and leaves the cache unchanged. -/
theorem getCached_spec {α ε : Type} (cache : List (String × CacheEntryRec α))
    (key : String) (fetcher : Except ε α) (ttl now : Int) :
    (∀ entry, cache.lookup key = some entry → now - entry.timestamp < ttl →
        getCached cache key fetcher ttl now = (.ok entry.data, cache)) ∧
    ((∀ entry, cache.lookup key = some entry → ¬ now - entry.timestamp < ttl) →
        (∀ v, fetcher = .ok v →
            getCached cache key fetcher ttl now = (.ok v, cacheSet cache key ⟨v, now⟩)) ∧
        (∀ e, fetcher = .error e →
            getCached cache key fetcher ttl now = (.error e, cache))) := by
  constructor
  · intro entry he hf
    simp only [getCached, he, if_pos hf]
  · intro hstale
    cases he : cache.lookup key with
    | none =>
      refine ⟨fun v hv => ?_, fun e hee => ?_⟩
      · simp only [getCached, he, hv]
      · simp only [getCached, he, hee]
    | some entry =>
      refine ⟨fun v hv => ?_, fun e hee => ?_⟩
      · simp only [getCached, he, hv, if_neg (hstale entry he)]
      · simp only [getCached, he, hee, if_neg (hstale entry he)]

/-- Membership in `sortInsert` is membership in the inserted element or the
underlying list. -/
theorem mem_sortInsert {α : Type} (cmp : α → α → Int) (a x : α) (l : List α) :
    x ∈ sortInsert cmp a l ↔ x = a ∨ x ∈ l := by
  induction l with
  | nil => simp [sortInsert]
  | cons b t ih =>
    by_cases hab : cmp a b ≤ 0
    · rw [sortInsert, if_pos hab]
      simp only [List.mem_cons]
    · rw [sortInsert, if_neg hab]
      simp only [List.mem_cons, ih]
      tauto

/-- `sortByCmp` permutes membership. -/
theorem mem_sortByCmp {α : Type} (cmp : α → α → Int) (x : α) (l : List α) :
    x ∈ sortByCmp cmp l ↔ x ∈ l := by
  induction l with
  | nil => simp [sortByCmp]
  | cons a t ih =>
    rw [sortByCmp, mem_sortInsert, ih, List.mem_cons]

/-- Inserting into a list sorted by a total, transitive comparator keeps it
sorted. -/
theorem pairwise_sortInsert {α : Type} (cmp : α → α → Int)
    (htot : ∀ a b, cmp a b ≤ 0 ∨ cmp b a ≤ 0)
    (htrans : ∀ a b c, cmp a b ≤ 0 → cmp b c ≤ 0 → cmp a c ≤ 0)
    (a : α) (l : List α) (hl : l.Pairwise (fun x y => cmp x y ≤ 0)) :
    (sortInsert cmp a l).Pairwise (fun x y => cmp x y ≤ 0) := by
  induction l with
  | nil => simp [sortInsert]
  | cons b t ih =>
    rcases List.pairwise_cons.mp hl with ⟨hb, ht⟩
    by_cases hab : cmp a b ≤ 0
    · rw [sortInsert, if_pos hab]
      refine List.pairwise_cons.mpr ⟨?_, hl⟩
      intro x hx
      rcases List.mem_cons.mp hx with rfl | hx
      · exact hab
      · exact htrans a b x hab (hb x hx)
    · rw [sortInsert, if_neg hab]
      refine List.pairwise_cons.mpr ⟨?_, ih ht⟩
      intro x hx
      rcases (mem_sortInsert cmp a x t).mp hx with heq | hx
      · rcases htot a b with hab' | hba
        · exact absurd hab' hab
        · rw [heq]
          exact hba
      · exact hb x hx

/-- Insertion sort by a total, transitive comparator produces a pairwise
sorted list. -/
theorem pairwise_sortByCmp {α : Type} (cmp : α → α → Int)
    (htot : ∀ a b, cmp a b ≤ 0 ∨ cmp b a ≤ 0)
    (htrans : ∀ a b c, cmp a b ≤ 0 → cmp b c ≤ 0 → cmp a c ≤ 0)
    (l : List α) : (sortByCmp cmp l).Pairwise (fun x y => cmp x y ≤ 0) := by
  induction l with
  | nil => simp [sortByCmp]
  | cons a t ih =>
    rw [sortByCmp]
    exact pairwise_sortInsert cmp htot htrans a _ ih

/-- `issueCmp a b ≤ 0` holds exactly when `a` may precede `b` in the claimed
order: higher severity rank, or equal rank and at least as large an area. -/
theorem issueCmp_nonpos_iff (a b : Issue) :
    issueCmp a b ≤ 0 ↔ IssueOrdered a b := by
  unfold issueCmp IssueOrdered
  by_cases hs : sevScore a.severity = sevScore b.severity
  · rw [if_neg (by simpa using hs), sub_nonpos]
    constructor
    · intro hle
      exact Or.inr ⟨hs, hle⟩
    · rintro (hlt | ⟨-, hle⟩)
      · linarith
      · exact hle
  · rw [if_pos hs, sub_nonpos]
    constructor
    · intro hle
      rcases lt_or_eq_of_le hle with hlt | heq
      · exact Or.inl hlt
      · exact absurd heq.symm hs
    · rintro (hlt | ⟨heq, -⟩)
      · linarith
      · exact absurd heq hs

/-- The issue comparator is total. -/
theorem issueCmp_total (a b : Issue) : issueCmp a b ≤ 0 ∨ issueCmp b a ≤ 0 := by
  rw [issueCmp_nonpos_iff, issueCmp_nonpos_iff]
  unfold IssueOrdered
  rcases lt_trichotomy (sevScore a.severity) (sevScore b.severity) with hlt | heq | hgt
  · exact Or.inr (Or.inl hlt)
  · rcases le_total (b.region.width * b.region.height)
        (a.region.width * a.region.height) with hle | hge
    · exact Or.inl (Or.inr ⟨heq, hle⟩)
    · exact Or.inr (Or.inr ⟨heq.symm, hge⟩)
  · exact Or.inl (Or.inl hgt)

/-- The issue comparator is transitive. -/
theorem issueCmp_trans (a b c : Issue) (h1 : issueCmp a b ≤ 0)
    (h2 : issueCmp b c ≤ 0) : issueCmp a c ≤ 0 := by
  rw [issueCmp_nonpos_iff] at h1 h2 ⊢
  unfold IssueOrdered at h1 h2 ⊢
  rcases h1 with h1 | ⟨h1e, h1a⟩ <;> rcases h2 with h2 | ⟨h2e, h2a⟩
  · exact Or.inl (by linarith)
  · exact Or.inl (by linarith)
  · exact Or.inl (by linarith)
  · exact Or.inr ⟨by linarith, by linarith⟩

/-- The analyzer result is the 20-capped comparator sort of a list of issues
each produced by `clusterToIssue`. -/
theorem analyze_eq_take (s f : Img) (w h sens : Nat) :
    ∃ issues : List Issue,
      analyzeImageDifferences s f w h sens = (sortByCmp issueCmp issues).take 20 ∧
      ∀ i ∈ issues, ∃ idx cl,
        clusterToIssue w h (sensitivityConfig sens) idx cl = some i := by
  refine ⟨_, rfl, ?_⟩
  intro i hi
  obtain ⟨p, _, hcl⟩ := List.mem_filterMap.mp hi
  exact ⟨p.1, p.2, hcl⟩

/-- Every issue produced by `clusterToIssue` has a region that is clipped
into the compared image. -/
theorem clusterToIssue_region_bounds {w h : Nat} {cfg : Config} {idx : Nat}
    {cl : Cluster} {i : Issue} (hi : clusterToIssue w h cfg idx cl = some i) :
    0 ≤ i.region.x ∧ 0 ≤ i.region.y ∧ i.region.x + i.region.width ≤ (w : Int) ∧
    i.region.y + i.region.height ≤ (h : Int) := by
  simp only [clusterToIssue] at hi
  split at hi
  · exact absurd hi (by simp)
  · split at hi
    · exact absurd hi (by simp)
    · injection hi with hi
      subst hi
      refine ⟨le_max_left 0 _, le_max_left 0 _, ?_, ?_⟩
      · have := min_le_right
          (((cl.maxX.getD 0 : Int) - (cl.minX.getD 0 : Int) + 1) * (BLOCK_SIZE : Int))
          ((w : Int) - max 0 ((cl.minX.getD 0 * BLOCK_SIZE : Nat) : Int))
        simp only [Issue.region]
        linarith
      · have := min_le_right
          (((cl.maxY.getD 0 : Int) - (cl.minY.getD 0 : Int) + 1) * (BLOCK_SIZE : Int))
          ((h : Int) - max 0 ((cl.minY.getD 0 * BLOCK_SIZE : Nat) : Int))
        simp only [Issue.region]
        linarith

/-- Every issue produced by `clusterToIssue` is classified from its clipped
region area exactly as the claim states. -/
theorem clusterToIssue_classification {w h : Nat} {cfg : Config} {idx : Nat}
    {cl : Cluster} {i : Issue} (hi : clusterToIssue w h cfg idx cl = some i) :
    (50000 < i.region.width * i.region.height → i.severity = "High") ∧
    (10000 < i.region.width * i.region.height →
      i.region.width * i.region.height ≤ 50000 → i.severity = "Medium") ∧
    (i.region.width * i.region.height ≤ 10000 → i.severity = "Low") ∧
    (i.region.width * i.region.height < 1000 → i.type = "Color") ∧
    (1000 ≤ i.region.width * i.region.height → i.type = "Layout") := by
  simp only [clusterToIssue] at hi
  split at hi
  · exact absurd hi (by simp)
  · split at hi
    · exact absurd hi (by simp)
    · injection hi with hi
      subst hi
      simp only [Issue.region, Issue.severity, Issue.type, Region.width, Region.height]
      refine ⟨fun h50 => ?_, fun h10 h50 => ?_, fun h10 => ?_, fun hc => ?_,
        fun hc => ?_⟩
      · rw [if_pos h50]
      · rw [if_neg (not_lt.mpr h50), if_pos h10]
      · rw [if_neg (not_lt.mpr (by linarith)), if_neg (not_lt.mpr h10)]
      · rw [if_pos hc]
      · rw [if_neg (not_lt.mpr hc)]

/-- **C6.** For every pair of images, sensitivity and compared size, the
analyzer returns at most 20 issues, sorted descending by severity rank then
by region area, and every issue's region lies inside the compared image. -/
theorem analyze_bounded_sorted (s f : Img) (w h sens : Nat) :
    (analyzeImageDifferences s f w h sens).length ≤ 20 ∧
    (analyzeImageDifferences s f w h sens).Pairwise IssueOrdered ∧
    (∀ i ∈ analyzeImageDifferences s f w h sens,
      0 ≤ i.region.x ∧ 0 ≤ i.region.y ∧
      i.region.x + i.region.width ≤ (w : Int) ∧
      i.region.y + i.region.height ≤ (h : Int)) := by
  obtain ⟨issues, heq, hsrc⟩ := analyze_eq_take s f w h sens
  rw [heq]
  refine ⟨List.length_take_le _ _, ?_, ?_⟩
  · refine List.Pairwise.sublist (List.take_sublist _ _) ?_
    exact (pairwise_sortByCmp issueCmp issueCmp_total issueCmp_trans issues).imp
      (fun hxy => (issueCmp_nonpos_iff _ _).mp hxy)
  · intro i hi
    have h1 : i ∈ sortByCmp issueCmp issues := List.take_subset _ _ hi
    obtain ⟨idx, cl, hcl⟩ := hsrc i ((mem_sortByCmp _ _ _).mp h1)
    exact clusterToIssue_region_bounds hcl

set_option maxRecDepth 1000000 in
set_option maxHeartbeats 2000000 in
/-- **C6, witness.** The 20×20 all-white vs all-black comparison emits the
concrete issue `issueW20`, whose region the theorem bounds inside the
20×20 image. -/
theorem analyze_bounded_sorted_witness :
    issueW20 ∈ analyzeImageDifferences white20 black20 20 20 3 ∧
    (0 ≤ issueW20.region.x ∧ 0 ≤ issueW20.region.y ∧
      issueW20.region.x + issueW20.region.width ≤ (20 : Int) ∧
      issueW20.region.y + issueW20.region.height ≤ (20 : Int)) := by
  have hmem : issueW20 ∈ analyzeImageDifferences white20 black20 20 20 3 := by decide
  exact ⟨hmem, (analyze_bounded_sorted white20 black20 20 20 3).2.2 issueW20 hmem⟩

/-- **C7.** Every emitted issue is classified from its clipped region area
`A = region.width * region.height`: severity High iff `A > 50000`, Medium
iff `10000 < A ≤ 50000`, Low otherwise; type Color iff `A < 1000`, Layout
otherwise. -/
theorem analyze_classification (s f : Img) (w h sens : Nat) (i : Issue)
    (hi : i ∈ analyzeImageDifferences s f w h sens) :
    (50000 < i.region.width * i.region.height → i.severity = "High") ∧
    (10000 < i.region.width * i.region.height →
      i.region.width * i.region.height ≤ 50000 → i.severity = "Medium") ∧
    (i.region.width * i.region.height ≤ 10000 → i.severity = "Low") ∧
    (i.region.width * i.region.height < 1000 → i.type = "Color") ∧
    (1000 ≤ i.region.width * i.region.height → i.type = "Layout") := by
  obtain ⟨issues, heq, hsrc⟩ := analyze_eq_take s f w h sens
  rw [heq] at hi
  obtain ⟨idx, cl, hcl⟩ :=
    hsrc i ((mem_sortByCmp _ _ _).mp (List.take_subset _ _ hi))
  exact clusterToIssue_classification hcl

set_option maxRecDepth 1000000 in
set_option maxHeartbeats 2000000 in
/-- **C7, witness.** The concrete `issueW20` (area 400) is classified
Low / Color. -/
theorem analyze_classification_witness :
    issueW20.severity = "Low" ∧ issueW20.type = "Color" := by
  have hmem : issueW20 ∈ analyzeImageDifferences white20 black20 20 20 3 := by decide
  have h := analyze_classification white20 black20 20 20 3 issueW20 hmem
  exact ⟨h.2.2.1 (by decide), h.2.2.2.1 (by decide)⟩

/-- **C5, counterexample.** The claim's copy rule uses the exact floor
`x * srcW / tw`, but `resizeImage` computes `Math.floor(x * (srcW/tw))` in
doubles: resampling a 122-wide image (each byte holding its column number)
to width 14, destination pixel x = 7 receives the byte of source column 60
(`7 * (122/14) = 60.99999999999999` in binary64), not of column
`⌊7·122/14⌋ = 61`. -/
theorem resizeImage_exact_floor_fails :
    (resizeImage img122 14 1).data ((0 * 14 + 7) * 4 + 0) ≠
      img122.data ((0 * 122 + 7 * 122 / 14) * 4 + 0) := by
  decide

/-- **C5, amended.** Resampling is the identity when the target dimensions
equal the source dimensions; otherwise every destination pixel `(x, y)`
takes each of its four RGBA channels verbatim from one source pixel, with
no interpolation — the source pixel at `Math.floor(x * (srcW/tw))`,
`Math.floor(y * (srcH/th))` computed in binary64 (`jsSrcCoord`), which can
differ from the exact floors `x*srcW/tw`, `y*srcH/th` by one. -/
theorem resizeImage_nearest (img : Img) (tw th x y c : Nat) :
    resizeImage img img.width img.height = img ∧
    (¬(img.width = tw ∧ img.height = th) → x < tw → y < th → c < 4 →
      (resizeImage img tw th).data ((y * tw + x) * 4 + c) =
        img.data (resizeSrcIdx img.width img.height tw th x y + c)) := by
  constructor
  · simp [resizeImage]
  · intro hne hx hy hc
    simp only [resizeImage, if_neg hne]
    have hp : y * tw + x < tw * th := by
      calc y * tw + x < y * tw + tw := by omega
        _ = (y + 1) * tw := by ring
        _ ≤ th * tw := Nat.mul_le_mul hy (le_refl tw)
        _ = tw * th := Nat.mul_comm th tw
    have hidx : (y * tw + x) * 4 + c < 4 * tw * th := by
      calc (y * tw + x) * 4 + c < (y * tw + x + 1) * 4 := by omega
        _ ≤ (tw * th) * 4 := Nat.mul_le_mul hp (le_refl 4)
        _ = 4 * tw * th := by ring
    rw [if_pos hidx]
    have e1 : ∀ p, (p * 4 + c) / 4 = p := fun p => by omega
    have e2 : ∀ p, (p * 4 + c) % 4 = c := fun p => by omega
    rw [e1, e2]
    have hxmod : (y * tw + x) % tw = x := by
      rw [Nat.mul_comm y tw, Nat.mul_add_mod, Nat.mod_eq_of_lt hx]
    have hxdiv : (y * tw + x) / tw = y := by
      rw [Nat.mul_comm y tw, Nat.mul_add_div (by omega), Nat.div_eq_of_lt hx,
        Nat.add_zero]
    rw [hxmod, hxdiv]

/-- **C5, witness.** The 2×1 `stripeImg` resampled to its own size is
itself, and resampled to 1×1 its destination pixel copies the source byte
at `resizeSrcIdx`. -/
theorem resizeImage_nearest_witness :
    resizeImage stripeImg stripeImg.width stripeImg.height = stripeImg ∧
    (resizeImage stripeImg 1 1).data ((0 * 1 + 0) * 4 + 0) =
      stripeImg.data (resizeSrcIdx stripeImg.width stripeImg.height 1 1 0 0 + 0) :=
  ⟨(resizeImage_nearest stripeImg 1 1 0 0 0).1,
   (resizeImage_nearest stripeImg 1 1 0 0 0).2 (by decide) (by decide) (by decide)
     (by decide)⟩

theorem bitlenAux_zero (fuel : Nat) : bitlenAux fuel 0 = 0 := by
  cases fuel <;> simp [bitlenAux]

theorem bitlenAux_spec : ∀ (fuel n : Nat), n ≤ fuel → 1 ≤ n →
    2 ^ (bitlenAux fuel n - 1) ≤ n ∧ n < 2 ^ bitlenAux fuel n := by
  intro fuel
  induction fuel with
  | zero => intro n h1 h2; omega
  | succ fuel ih =>
    intro n hle hpos
    rw [bitlenAux, if_neg (by omega : ¬ n = 0)]
    by_cases h2 : n < 2
    · have hn1 : n = 1 := by omega
      subst hn1
      rw [show (1 : Nat) / 2 = 0 from rfl, bitlenAux_zero]
      norm_num
    · have hd1 : 1 ≤ n / 2 := by omega
      have hdf : n / 2 ≤ fuel := by omega
      obtain ⟨hlo, hhi⟩ := ih (n / 2) hdf hd1
      set b := bitlenAux fuel (n / 2) with hb
      have hb1 : 1 ≤ b := by
        by_contra hb0
        have hz : b = 0 := by omega
        rw [hz, pow_zero] at hhi
        omega
      have h2b : 2 ^ b = 2 * 2 ^ (b - 1) := by
        conv_lhs => rw [show b = (b - 1) + 1 from by omega]
        rw [pow_succ]
        ring
      have h2b1 : 2 ^ (b + 1) = 2 * 2 ^ b := by
        rw [pow_succ]
        ring
      rw [show b + 1 - 1 = b from by omega]
      generalize hA : 2 ^ (b - 1) = A at *
      generalize hB : 2 ^ b = B at *
      generalize hC : 2 ^ (b + 1) = C at *
      omega

theorem bitlen_spec (n : Nat) (hn : 1 ≤ n) :
    2 ^ (bitlen n - 1) ≤ n ∧ n < 2 ^ bitlen n :=
  bitlenAux_spec n n le_rfl hn

theorem bitlen_pos (n : Nat) (hn : 1 ≤ n) : 1 ≤ bitlen n := by
  obtain ⟨-, hhi⟩ := bitlen_spec n hn
  by_contra h
  have hz : bitlen n = 0 := by omega
  rw [hz, pow_zero] at hhi
  omega

theorem rne_le_q (p q : Nat) (hq : 1 ≤ q) :
    (rne p q : ℚ) ≤ (p : ℚ) / q + 1 / 2 := by
  have hq0 : (0 : ℚ) < q := by exact_mod_cast hq
  rw [div_add_div _ _ (ne_of_gt hq0) two_ne_zero, le_div_iff (by positivity)]
  have hM : q * (p / q) + p % q = p := Nat.div_add_mod p q
  have hMq : (q : ℚ) * ((p / q : Nat) : ℚ) + ((p % q : Nat) : ℚ) = p := by
    exact_mod_cast hM
  have hbnn : (0 : ℚ) ≤ ((p % q : Nat) : ℚ) := by positivity
  simp only [rne]
  split
  next h =>
    push_cast
    nlinarith [hMq, hbnn, hq0]
  next h =>
    have hge : (q : ℚ) ≤ 2 * ((p % q : Nat) : ℚ) := by
      exact_mod_cast (by omega : q ≤ 2 * (p % q))
    split
    next h2 =>
      push_cast
      nlinarith [hMq, hq0, hge]
    next h2 =>
      split <;> push_cast <;> nlinarith [hMq, hbnn, hq0, hge]

theorem rne_pos (p q : Nat) (hq : 1 ≤ q) (hpq : q ≤ p) : 1 ≤ rne p q := by
  have h1 : 1 ≤ p / q := (Nat.one_le_div_iff (by omega)).mpr hpq
  simp only [rne]
  split
  · exact h1
  · split
    · omega
    · split <;> omega

theorem FP.val_eq (f : FP) : f.val = (f.m : ℚ) * (2 : ℚ) ^ f.e := by
  unfold FP.val
  split
  next he =>
    rw [← zpow_natCast (2 : ℚ) f.e.toNat, Int.toNat_of_nonneg he]
  next he =>
    rw [div_eq_mul_inv, ← zpow_natCast (2 : ℚ) (-f.e).toNat,
      Int.toNat_of_nonneg (by omega), ← zpow_neg, neg_neg]

theorem FP.val_nonneg (f : FP) : 0 ≤ f.val := by
  rw [FP.val_eq]
  positivity

theorem zpow_toNat (e : Int) (he : 0 ≤ e) : (2 : ℚ) ^ e = (2 : ℚ) ^ e.toNat := by
  rw [← zpow_natCast (2 : ℚ) e.toNat, Int.toNat_of_nonneg he]

theorem zpow_neg_toNat (e : Int) (he : e ≤ 0) :
    (2 : ℚ) ^ e = ((2 : ℚ) ^ (-e).toNat)⁻¹ := by
  rw [← zpow_natCast (2 : ℚ) (-e).toNat, Int.toNat_of_nonneg (by omega), ← zpow_neg,
    neg_neg]

theorem flK_le (p q : Nat) (hp : 1 ≤ p) (hq : 1 ≤ q) :
    (2 : ℚ) ^ flK p q ≤ (p : ℚ) / q := by
  have hq0 : (0 : ℚ) < q := by exact_mod_cast hq
  unfold flK
  set d : Int := (bitlen p : Int) - (bitlen q : Int) with hd
  by_cases hle : pow2LE p q d
  · rw [if_pos hle]
    unfold pow2LE at hle
    split at hle
    next hd0 =>
      have h : q * 2 ^ d.toNat ≤ p := of_decide_eq_true hle
      rw [le_div_iff hq0]
      have h2d : (2 : ℚ) ^ d = ((2 ^ d.toNat : Nat) : ℚ) := by
        push_cast
        rw [← zpow_natCast (2 : ℚ) d.toNat, Int.toNat_of_nonneg hd0]
      rw [h2d]
      exact_mod_cast le_of_eq_of_le (Nat.mul_comm (2 ^ d.toNat) q) h
    next hd0 =>
      have h : q ≤ p * 2 ^ (-d).toNat := of_decide_eq_true hle
      have h2d : (2 : ℚ) ^ d = 1 / ((2 ^ (-d).toNat : Nat) : ℚ) := by
        push_cast
        rw [zpow_neg_toNat d (by omega), one_div]
      rw [h2d, div_le_div_iff (by positivity) hq0, one_mul]
      exact_mod_cast h
  · rw [if_neg hle]
    obtain ⟨hp1, -⟩ := bitlen_spec p hp
    obtain ⟨-, hq2⟩ := bitlen_spec q hq
    have hbp1 : 1 ≤ bitlen p := bitlen_pos p hp
    have hcast : d - 1 = ((bitlen p - 1 : Nat) : Int) - ((bitlen q : Nat) : Int) := by
      rw [hd]
      push_cast [Nat.cast_sub hbp1]
      ring
    rw [hcast]
    have hsplit : (2 : ℚ) ^ (((bitlen p - 1 : Nat) : Int) - ((bitlen q : Nat) : Int)) =
        ((2 ^ (bitlen p - 1) : Nat) : ℚ) / ((2 ^ bitlen q : Nat) : ℚ) := by
      rw [zpow_sub₀ two_ne_zero, zpow_natCast, zpow_natCast]
      push_cast
      ring
    rw [hsplit]
    exact div_le_div (by positivity) (by exact_mod_cast hp1) hq0
      (by exact_mod_cast le_of_lt hq2)

theorem flK_norm (p q : Nat) (hp : 1 ≤ p) (hq : 1 ≤ q) :
    (2 : ℚ) ^ (52 : Int) ≤ ((p : ℚ) / q) * (2 : ℚ) ^ (-(flK p q - 52)) := by
  have h52 : (2 : ℚ) ^ (52 : Int) =
      (2 : ℚ) ^ flK p q * (2 : ℚ) ^ (-(flK p q - 52)) := by
    rw [← zpow_add₀ two_ne_zero]
    congr 1
    ring
  rw [h52]
  exact mul_le_mul_of_nonneg_right (flK_le p q hp hq) (by positivity)

theorem flRat_val_le (p q : Nat) (hp : 1 ≤ p) (hq : 1 ≤ q) :
    (flRat p q).val ≤ ((p : ℚ) / q) * (1 + 1 / 2 ^ 53) := by
  have hq0 : (0 : ℚ) < q := by exact_mod_cast hq
  unfold flRat
  rw [if_neg (by omega : ¬ p = 0)]
  rw [FP.val_eq]
  set e : Int := flK p q - 52 with he
  have ht : (2 : ℚ) ^ (52 : Int) ≤ ((p : ℚ) / q) * (2 : ℚ) ^ (-e) := by
    rw [he]
    exact flK_norm p q hp hq
  have hm : ((if 0 ≤ e then rne p (q * 2 ^ e.toNat)
        else rne (p * 2 ^ (-e).toNat) q : Nat) : ℚ) ≤
      ((p : ℚ) / q) * (2 : ℚ) ^ (-e) + 1 / 2 := by
    split
    next he0 =>
      have hq2 : 1 ≤ q * 2 ^ e.toNat := Nat.mul_pos (by omega) (Nat.two_pow_pos _)
      have hrw : (p : ℚ) / ((q * 2 ^ e.toNat : Nat) : ℚ) =
          ((p : ℚ) / q) * (2 : ℚ) ^ (-e) := by
        push_cast
        rw [zpow_neg, ← zpow_natCast (2 : ℚ) e.toNat, Int.toNat_of_nonneg he0,
          div_mul_eq_div_div, div_eq_mul_inv ((p : ℚ) / q)]
      calc ((rne p (q * 2 ^ e.toNat) : Nat) : ℚ)
          ≤ (p : ℚ) / ((q * 2 ^ e.toNat : Nat) : ℚ) + 1 / 2 := rne_le_q _ _ hq2
        _ = ((p : ℚ) / q) * (2 : ℚ) ^ (-e) + 1 / 2 := by rw [hrw]
    next he0 =>
      have hrw : ((p * 2 ^ (-e).toNat : Nat) : ℚ) / (q : ℚ) =
          ((p : ℚ) / q) * (2 : ℚ) ^ (-e) := by
        push_cast
        rw [← zpow_natCast (2 : ℚ) (-e).toNat, Int.toNat_of_nonneg (by omega)]
        ring
      calc ((rne (p * 2 ^ (-e).toNat) q : Nat) : ℚ)
          ≤ ((p * 2 ^ (-e).toNat : Nat) : ℚ) / q + 1 / 2 := rne_le_q _ _ hq
        _ = ((p : ℚ) / q) * (2 : ℚ) ^ (-e) + 1 / 2 := by rw [hrw]
  have hepos : (0 : ℚ) < (2 : ℚ) ^ e := by positivity
  have hkey : (2 : ℚ) ^ (52 : Int) * (2 : ℚ) ^ e ≤ (p : ℚ) / q := by
    have h1 := mul_le_mul_of_nonneg_right ht (le_of_lt hepos)
    have h2 : ((p : ℚ) / q) * (2 : ℚ) ^ (-e) * (2 : ℚ) ^ e = (p : ℚ) / q := by
      rw [mul_assoc, ← zpow_add₀ two_ne_zero]
      simp
    rw [h2] at h1
    exact h1
  calc ((if 0 ≤ e then rne p (q * 2 ^ e.toNat)
        else rne (p * 2 ^ (-e).toNat) q : Nat) : ℚ) * (2 : ℚ) ^ e
      ≤ (((p : ℚ) / q) * (2 : ℚ) ^ (-e) + 1 / 2) * (2 : ℚ) ^ e :=
        mul_le_mul_of_nonneg_right hm (le_of_lt hepos)
    _ = (p : ℚ) / q + (2 : ℚ) ^ e / 2 := by
        rw [add_mul, mul_assoc, ← zpow_add₀ two_ne_zero]
        simp
        ring
    _ ≤ (p : ℚ) / q + ((p : ℚ) / q) / 2 ^ 53 := by
        have hfin : (2 : ℚ) ^ e / 2 ≤ ((p : ℚ) / q) / 2 ^ 53 := by
          rw [div_le_div_iff (by norm_num) (by positivity : (0 : ℚ) < (2 : ℚ) ^ (53 : Nat))]
          have h53 : (2 : ℚ) ^ (53 : Nat) = (2 : ℚ) ^ (52 : Int) * 2 := by
            rw [zpow_toNat 52 (by omega), show Int.toNat 52 = 52 from rfl]
            norm_num
          rw [h53]
          nlinarith [hkey]
        linarith
    _ = ((p : ℚ) / q) * (1 + 1 / 2 ^ 53) := by ring

theorem flRat_m_pos (p q : Nat) (hp : 1 ≤ p) (hq : 1 ≤ q) : 1 ≤ (flRat p q).m := by
  have hq0 : (0 : ℚ) < q := by exact_mod_cast hq
  unfold flRat
  rw [if_neg (by omega : ¬ p = 0)]
  set e : Int := flK p q - 52 with he
  have ht : (2 : ℚ) ^ (52 : Int) ≤ ((p : ℚ) / q) * (2 : ℚ) ^ (-e) := by
    rw [he]
    exact flK_norm p q hp hq
  have h1t : (1 : ℚ) ≤ ((p : ℚ) / q) * (2 : ℚ) ^ (-e) := by
    calc (1 : ℚ) ≤ (2 : ℚ) ^ (52 : Int) := by norm_num
      _ ≤ _ := ht
  simp only
  split
  next he0 =>
    apply rne_pos
    · exact Nat.mul_pos (by omega) (Nat.two_pow_pos _)
    · -- q * 2^e.toNat ≤ p
      have hrw : ((p : ℚ) / q) * (2 : ℚ) ^ (-e) =
          (p : ℚ) / ((q * 2 ^ e.toNat : Nat) : ℚ) := by
        push_cast
        rw [zpow_neg, ← zpow_natCast (2 : ℚ) e.toNat, Int.toNat_of_nonneg he0,
          div_mul_eq_div_div, div_eq_mul_inv ((p : ℚ) / q)]
      rw [hrw] at h1t
      have hd0 : (0 : ℚ) < ((q * 2 ^ e.toNat : Nat) : ℚ) := by positivity
      rw [one_le_div hd0] at h1t
      exact_mod_cast h1t
  next he0 =>
    apply rne_pos
    · exact hq
    · -- q ≤ p * 2^(-e).toNat
      have hrw : ((p : ℚ) / q) * (2 : ℚ) ^ (-e) =
          ((p * 2 ^ (-e).toNat : Nat) : ℚ) / (q : ℚ) := by
        push_cast
        rw [← zpow_natCast (2 : ℚ) (-e).toNat, Int.toNat_of_nonneg (by omega)]
        ring
      rw [hrw, one_le_div hq0] at h1t
      exact_mod_cast h1t

theorem flMulNat_val_le (x : Nat) (f : FP) (hx : 1 ≤ x) (hm : 1 ≤ f.m) :
    (flMulNat x f).val ≤ (x : ℚ) * f.val * (1 + 1 / 2 ^ 53) := by
  have hfe : (0 : ℚ) < (2 : ℚ) ^ f.e := by positivity
  unfold flMulNat
  rw [if_neg (by omega : ¬ (x = 0 ∨ f.m = 0))]
  rw [FP.val_eq]
  simp only
  set e2 : Int := (bitlen (x * f.m) : Int) - 53 with he2
  have hX1 : 1 ≤ x * f.m := Nat.mul_le_mul hx hm
  obtain ⟨hXlo, hXhi⟩ := bitlen_spec (x * f.m) hX1
  have hval : f.val = (f.m : ℚ) * (2 : ℚ) ^ f.e := FP.val_eq f
  split
  next h0 =>
    -- rounded: m2 = rne (x*f.m) (2^e2.toNat)
    have hb53 : bitlen (x * f.m) = e2.toNat + 53 := by omega
    have hq2 : 1 ≤ 2 ^ e2.toNat := Nat.one_le_two_pow
    have hmle := rne_le_q (x * f.m) (2 ^ e2.toNat) hq2
    have hXloQ : ((2 ^ (e2.toNat + 52) : Nat) : ℚ) ≤ ((x * f.m : Nat) : ℚ) := by
      exact_mod_cast (by rw [show e2.toNat + 52 = bitlen (x * f.m) - 1 from by omega]; exact hXlo)
    have hE : (0 : ℚ) < ((2 ^ e2.toNat : Nat) : ℚ) := by positivity
    -- val = m2 * 2^(f.e + e2)
    have hrw : (2 : ℚ) ^ (f.e + e2) = (2 : ℚ) ^ f.e * (2 : ℚ) ^ e2 :=
      zpow_add₀ two_ne_zero _ _
    rw [hval, hrw]
    have hz : ((2 ^ e2.toNat : Nat) : ℚ) = (2 : ℚ) ^ e2 := by
      push_cast
      rw [← zpow_natCast (2 : ℚ) e2.toNat, Int.toNat_of_nonneg h0]
    calc ((rne (x * f.m) (2 ^ e2.toNat) : Nat) : ℚ) * ((2 : ℚ) ^ f.e * (2 : ℚ) ^ e2)
        ≤ (((x * f.m : Nat) : ℚ) / ((2 ^ e2.toNat : Nat) : ℚ) + 1 / 2) *
            ((2 : ℚ) ^ f.e * (2 : ℚ) ^ e2) := by
          apply mul_le_mul_of_nonneg_right hmle
          positivity
      _ = ((x * f.m : Nat) : ℚ) * (2 : ℚ) ^ f.e + (2 : ℚ) ^ e2 * (2 : ℚ) ^ f.e / 2 := by
          rw [hz]
          field_simp
          ring
      _ ≤ ((x * f.m : Nat) : ℚ) * (2 : ℚ) ^ f.e +
            ((x * f.m : Nat) : ℚ) / 2 ^ 53 * (2 : ℚ) ^ f.e := by
          have hb : (2 : ℚ) ^ e2 / 2 ≤ ((x * f.m : Nat) : ℚ) / 2 ^ 53 := by
            rw [div_le_div_iff (by norm_num) (by positivity : (0 : ℚ) < (2 : ℚ) ^ (53 : Nat))]
            have hXQ : ((2 : ℚ) ^ e2) * 2 ^ (52 : Nat) ≤ ((x * f.m : Nat) : ℚ) := by
              calc ((2 : ℚ) ^ e2) * 2 ^ (52 : Nat) = ((2 ^ (e2.toNat + 52) : Nat) : ℚ) := by
                    rw [zpow_toNat e2 h0]
                    push_cast [pow_add]
                    ring
                _ ≤ ((x * f.m : Nat) : ℚ) := hXloQ
            nlinarith [hXQ]
          have h2f : (0 : ℚ) ≤ (2 : ℚ) ^ f.e := le_of_lt hfe
          nlinarith [hb, h2f]
      _ = (x : ℚ) * ((f.m : ℚ) * (2 : ℚ) ^ f.e) * (1 + 1 / 2 ^ 53) := by
          push_cast
          ring
  next h0 =>
    -- exact: m2 = (x*f.m) * 2^(-e2).toNat, value equals x * f.val exactly
    have hz : ((2 ^ (-e2).toNat : Nat) : ℚ) = (2 : ℚ) ^ (-e2) := by
      push_cast
      rw [← zpow_natCast (2 : ℚ) (-e2).toNat, Int.toNat_of_nonneg (by omega)]
    have heq : (((x * f.m) * 2 ^ (-e2).toNat : Nat) : ℚ) * (2 : ℚ) ^ (f.e + e2) =
        (x : ℚ) * f.val := by
      push_cast
      rw [hval]
      rw [show ((2:ℚ) ^ (-e2).toNat) = (2 : ℚ) ^ (-e2) from by
        rw [← zpow_natCast (2 : ℚ) (-e2).toNat, Int.toNat_of_nonneg (by omega)]]
      rw [zpow_add₀ two_ne_zero]
      rw [show (2 : ℚ) ^ (-e2) = ((2 : ℚ) ^ e2)⁻¹ from zpow_neg 2 e2]
      have h2e2 : (2 : ℚ) ^ e2 ≠ 0 := by positivity
      field_simp
      ring
    rw [heq]
    have hnn : (0 : ℚ) ≤ (x : ℚ) * f.val := by
      have := FP.val_nonneg f
      positivity
    nlinarith [hnn]

theorem fpFloor_le_val (f : FP) : (fpFloor f : ℚ) ≤ f.val := by
  unfold fpFloor FP.val
  split
  · push_cast
    exact le_refl _
  · calc ((f.m / 2 ^ (-f.e).toNat : Nat) : ℚ) ≤ (f.m : ℚ) / ((2 ^ (-f.e).toNat : Nat) : ℚ) :=
        Nat.cast_div_le
      _ = (f.m : ℚ) / 2 ^ (-f.e).toNat := by push_cast; ring_nf

theorem jsSrcCoord_lt (x sw tw : Nat) (hsw : 1 ≤ sw) (htw : 1 ≤ tw)
    (htwB : tw ≤ 2 ^ 20) (hx : x < tw) : jsSrcCoord x sw tw < sw := by
  by_cases hx0 : x = 0
  · subst hx0
    unfold jsSrcCoord flMulNat
    rw [if_pos (Or.inl rfl)]
    unfold fpFloor
    simp
    omega
  · have hx1 : 1 ≤ x := by omega
    have hsc := flRat_val_le sw tw hsw htw
    have hscm := flRat_m_pos sw tw hsw htw
    have hprod := flMulNat_val_le x (flRat sw tw) hx1 hscm
    have hfl := fpFloor_le_val (flMulNat x (flRat sw tw))
    have hvnn := FP.val_nonneg (flRat sw tw)
    have hS : (0 : ℚ) < (sw : ℚ) / tw := by positivity
    have htwQ : (tw : ℚ) ≤ 2 ^ 20 := by exact_mod_cast htwB
    have htw1 : (1 : ℚ) ≤ (tw : ℚ) := by exact_mod_cast htw
    have hxQ : (x : ℚ) ≤ (tw : ℚ) - 1 := by
      have : (x : ℚ) + 1 ≤ (tw : ℚ) := by exact_mod_cast hx
      linarith
    have hxnn : (0 : ℚ) ≤ (x : ℚ) := by positivity
    have htw0 : (tw : ℚ) ≠ 0 := by positivity
    have hchain : ((jsSrcCoord x sw tw : Nat) : ℚ) < sw := by
      calc ((jsSrcCoord x sw tw : Nat) : ℚ)
          ≤ (flMulNat x (flRat sw tw)).val := hfl
        _ ≤ (x : ℚ) * (flRat sw tw).val * (1 + 1 / 2 ^ 53) := hprod
        _ ≤ (x : ℚ) * (((sw : ℚ) / tw) * (1 + 1 / 2 ^ 53)) * (1 + 1 / 2 ^ 53) := by
            apply mul_le_mul_of_nonneg_right _ (by norm_num)
            exact mul_le_mul_of_nonneg_left hsc hxnn
        _ ≤ ((tw : ℚ) - 1) * (((sw : ℚ) / tw) * (1 + 1 / 2 ^ 53)) * (1 + 1 / 2 ^ 53) := by
            apply mul_le_mul_of_nonneg_right _ (by norm_num)
            apply mul_le_mul_of_nonneg_right hxQ
            positivity
        _ = (((tw : ℚ) - 1) * ((1 + 1 / 2 ^ 53) * (1 + 1 / 2 ^ 53))) * ((sw : ℚ) / tw) := by
            ring
        _ < (tw : ℚ) * ((sw : ℚ) / tw) := by
            apply mul_lt_mul_of_pos_right _ hS
            nlinarith [htwQ, htw1]
        _ = (sw : ℚ) := by field_simp
    exact_mod_cast hchain

/-- **C10.** For a well-formed source image (buffer length
`4 * width * height`, both dimensions at least 1) and any target dimensions
at least 1, all within the `2^20` range on which the binary64 model is
exact, every source coordinate computed by the resampler's double
arithmetic stays below the source dimension — as do the exact floors
`x*srcW/tw`, `y*srcH/th` the claim names — so every byte offset read by
`resizeImage` lies inside the source buffer. -/
theorem resizeImage_reads_inbounds (img : Img) (tw th x y c : Nat)
    (hwf : img.dataLen = 4 * img.width * img.height)
    (hw : 1 ≤ img.width) (hh : 1 ≤ img.height)
    (htw : 1 ≤ tw) (hth : 1 ≤ th)
    (htwB : tw ≤ 2 ^ 20) (hthB : th ≤ 2 ^ 20)
    (hwB : img.width ≤ 2 ^ 20) (hhB : img.height ≤ 2 ^ 20)
    (hx : x < tw) (hy : y < th) (hc : c < 4) :
    jsSrcCoord x img.width tw ≤ img.width - 1 ∧
    jsSrcCoord y img.height th ≤ img.height - 1 ∧
    x * img.width / tw ≤ img.width - 1 ∧
    y * img.height / th ≤ img.height - 1 ∧
    resizeSrcIdx img.width img.height tw th x y + c < img.dataLen := by
  have hjx : jsSrcCoord x img.width tw < img.width :=
    jsSrcCoord_lt x img.width tw hw htw htwB hx
  have hjy : jsSrcCoord y img.height th < img.height :=
    jsSrcCoord_lt y img.height th hh hth hthB hy
  have hsx : x * img.width / tw < img.width := by
    rw [Nat.div_lt_iff_lt_mul (by omega : 0 < tw)]
    calc x * img.width < tw * img.width := by
          exact Nat.mul_lt_mul_of_lt_of_le hx (le_refl img.width) (by omega)
      _ = img.width * tw := Nat.mul_comm _ _
  have hsy : y * img.height / th < img.height := by
    rw [Nat.div_lt_iff_lt_mul (by omega : 0 < th)]
    calc y * img.height < th * img.height := by
          exact Nat.mul_lt_mul_of_lt_of_le hy (le_refl img.height) (by omega)
      _ = img.height * th := Nat.mul_comm _ _
  refine ⟨by omega, by omega, by omega, by omega, ?_⟩
  rw [hwf]
  have hpix : jsSrcCoord y img.height th * img.width + jsSrcCoord x img.width tw <
      img.height * img.width := by
    calc jsSrcCoord y img.height th * img.width + jsSrcCoord x img.width tw
        < jsSrcCoord y img.height th * img.width + img.width := by omega
      _ = (jsSrcCoord y img.height th + 1) * img.width := by ring
      _ ≤ img.height * img.width := Nat.mul_le_mul (by omega) (le_refl img.width)
  unfold resizeSrcIdx
  calc (jsSrcCoord y img.height th * img.width + jsSrcCoord x img.width tw) * 4 + c
      < (jsSrcCoord y img.height th * img.width + jsSrcCoord x img.width tw + 1) * 4 := by
        omega
    _ ≤ (img.height * img.width) * 4 := Nat.mul_le_mul (by omega) (le_refl 4)
    _ = 4 * img.width * img.height := by ring

/-- **C10, witness.** Concrete in-bounds run: the well-formed 2×1
`stripeImg` resampled to 1×1, destination pixel (0,0), alpha channel. -/
theorem resizeImage_reads_inbounds_witness :
    jsSrcCoord 0 stripeImg.width 1 ≤ stripeImg.width - 1 ∧
    jsSrcCoord 0 stripeImg.height 1 ≤ stripeImg.height - 1 ∧
    0 * stripeImg.width / 1 ≤ stripeImg.width - 1 ∧
    0 * stripeImg.height / 1 ≤ stripeImg.height - 1 ∧
    resizeSrcIdx stripeImg.width stripeImg.height 1 1 0 0 + 3 < stripeImg.dataLen :=
  resizeImage_reads_inbounds stripeImg 1 1 0 0 3 (by decide) (by decide) (by decide)
    (by decide) (by decide) (by decide) (by decide) (by decide) (by decide)
    (by decide) (by decide) (by decide)

/-- **C4, witness.** A fresh hit returns the stored value (ignoring a
fetcher that would return 7), and a miss with a failing fetcher propagates
the error leaving the cache unchanged. -/
theorem getCached_spec_witness :
    getCached [("k", (⟨42, 0⟩ : CacheEntryRec Nat))] "k" (Except.ok (ε := Unit) 7) 900000 10 =
      (.ok 42, [("k", ⟨42, 0⟩)]) ∧
    getCached [("k", (⟨42, 0⟩ : CacheEntryRec Nat))] "x" (Except.error (ε := Unit) ()) 900000 10 =
      (.error (), [("k", ⟨42, 0⟩)]) :=
  ⟨(getCached_spec _ "k" _ 900000 10).1 ⟨42, 0⟩ (by decide) (by decide),
   ((getCached_spec [("k", (⟨42, 0⟩ : CacheEntryRec Nat))] "x" (Except.error (ε := Unit) ())
        900000 10).2
      (fun entry h => by
        rw [show List.lookup "x" [("k", (⟨42, 0⟩ : CacheEntryRec Nat))] = none from rfl] at h
        exact Option.noConfusion h)).2 () rfl⟩

/-- Comparing an image with itself gives per-pixel difference 0. -/
theorem pixelDiffSum_self (img : Img) (idx : Nat) : pixelDiffSum img img idx = 0 := by
  unfold pixelDiffSum
  simp

/-- Comparing an image with itself marks no pixel as differing in any
block tally. -/
theorem blockCounts_self_fst (img : Img) (width : Nat) (cfg : Config)
    (startX endX startY endY : Nat) :
    (blockCounts img img width cfg startX endX startY endY).1 = 0 := by
  have inner : ∀ (rowOffset : Nat) (xs : List Nat) (acc : Nat × Nat), acc.1 = 0 →
      (xs.foldl (fun acc2 x =>
        let idx := (rowOffset + x) * 4
        if img.dataLen ≤ idx + 2 then acc2
        else
          ((if 3 * cfg.pixelDiffThreshold < pixelDiffSum img img idx then acc2.1 + 1
            else acc2.1), acc2.2 + 1)) acc).1 = 0 := by
    intro rowOffset xs
    induction xs with
    | nil => exact fun acc h => h
    | cons x t ih =>
      intro acc h
      rw [List.foldl_cons]
      apply ih
      show (if img.dataLen ≤ (rowOffset + x) * 4 + 2 then acc
        else ((if 3 * cfg.pixelDiffThreshold < pixelDiffSum img img ((rowOffset + x) * 4)
          then acc.1 + 1 else acc.1), acc.2 + 1)).1 = 0
      by_cases hb : img.dataLen ≤ (rowOffset + x) * 4 + 2
      · rw [if_pos hb]
        exact h
      · rw [if_neg hb]
        simp only [pixelDiffSum_self]
        rw [if_neg (Nat.not_lt_zero _)]
        exact h
  have outer : ∀ (ys : List Nat) (acc : Nat × Nat), acc.1 = 0 →
      (ys.foldl (fun accr y =>
        let rowOffset := y * width
        (List.range' startX (endX - startX)).foldl (fun acc2 x =>
          let idx := (rowOffset + x) * 4
          if img.dataLen ≤ idx + 2 then acc2
          else
            ((if 3 * cfg.pixelDiffThreshold < pixelDiffSum img img idx then acc2.1 + 1
              else acc2.1), acc2.2 + 1)) accr) acc).1 = 0 := by
    intro ys
    induction ys with
    | nil => exact fun acc h => h
    | cons y t ih =>
      intro acc h
      rw [List.foldl_cons]
      exact ih _ (inner (y * width) _ acc h)
  exact outer _ _ rfl

/-- No detection block is active when an image is compared with itself. -/
theorem blockActive_self (img : Img) (width height : Nat) (cfg : Config)
    (bx bY : Nat) : blockActive img img width height cfg bx bY = false := by
  simp only [blockActive]
  apply decide_eq_false
  rintro ⟨-, h2⟩
  rw [blockCounts_self_fst] at h2
  simp at h2

/-- With no active block the component scan returns no clusters. -/
theorem clustersFromActive_false (active : Nat → Bool) (bXn bYn : Nat)
    (hfalse : ∀ i, active i = false) :
    clustersFromActive active bXn bYn = [] := by
  have go : ∀ (l : List Nat) (acc : List Cluster × (Nat → Bool)),
      l.foldl (fun (acc : List Cluster × (Nat → Bool)) i =>
        if active i && ! acc.2 i then
          let visited1 : Nat → Bool := fun j => if j = i then true else acc.2 j
          let r := floodStep active bXn bYn (bXn * bYn + 1) [i] visited1 emptyCluster
          (acc.1 ++ [r.1], r.2)
        else acc) acc = acc := by
    intro l
    induction l with
    | nil => exact fun acc => rfl
    | cons i t ih =>
      intro acc
      simp only [List.foldl_cons, hfalse i, Bool.false_and, Bool.false_eq_true,
        if_false]
      exact ih acc
  simp only [clustersFromActive]
  rw [go]

/-- Comparing any image against itself yields no issues, at any sensitivity
and any compared size. -/
theorem analyze_self_empty (img : Img) (w h sens : Nat) :
    analyzeImageDifferences img img w h sens = [] := by
  simp only [analyzeImageDifferences]
  rw [clustersFromActive_false _ _ _
    (fun i => blockActive_self img w h (sensitivityConfig sens) _ _)]
  rfl

/-- The modelled pixelmatch counts no mismatches on identical buffers. -/
theorem pixelmatchCount_self (d : Nat → Nat) (w h : Nat) (t : ℚ) :
    pixelmatchCount d d w h t = 0 := by
  unfold pixelmatchCount
  rw [List.countP_eq_zero]
  intro a _
  simp

/-- **C8.** Comparing an image against a byte-identical copy of itself at
any sensitivity level 1–5 yields `diffScore = 0` and an empty issue list. -/
theorem identity_comparison (img : Img) (dims : Dims) (sens : Nat)
    (hs1 : 1 ≤ sens) (hs5 : sens ≤ 5) (hw : 1 ≤ img.width) (hh : 1 ≤ img.height)
    (hdw : 1 ≤ dims.width) (hdh : 1 ≤ dims.height) :
    (performComparisonCore img img dims sens).diffScore = 0 ∧
    (performComparisonCore img img dims sens).issues = [] := by
  constructor
  · show ((pixelmatchCount _ _ _ _ _ : Nat) : ℚ) / _ = 0
    rw [pixelmatchCount_self]
    simp
  · exact analyze_self_empty _ _ _ _

/-- **C8, witness.** The 1×1 black image compared against itself at
sensitivity 3 with requested dimensions 1×1. -/
theorem identity_comparison_witness :
    (performComparisonCore unitImg unitImg ⟨1, 1⟩ 3).diffScore = 0 ∧
    (performComparisonCore unitImg unitImg ⟨1, 1⟩ 3).issues = [] :=
  identity_comparison unitImg ⟨1, 1⟩ 3 (by decide) (by decide) (by decide)
    (by decide) (by decide) (by decide)

/-- The per-pixel difference reads only the three RGB bytes at
`idx`, `idx+1`, `idx+2` of each buffer. -/
theorem pixelDiffSum_alpha {s1 s2 f1 f2 : Img}
    (hs : ∀ i, i % 4 ≠ 3 → s1.data i = s2.data i)
    (hf : ∀ i, i % 4 ≠ 3 → f1.data i = f2.data i)
    {idx : Nat} (hidx : idx % 4 = 0) :
    pixelDiffSum s1 f1 idx = pixelDiffSum s2 f2 idx := by
  unfold pixelDiffSum
  rw [hs idx (by omega), hs (idx + 1) (by omega), hs (idx + 2) (by omega),
    hf idx (by omega), hf (idx + 1) (by omega), hf (idx + 2) (by omega)]

/-- Block tallies agree on inputs that differ only in alpha bytes. -/
theorem blockCounts_alpha {s1 s2 f1 f2 : Img} (hsl : s1.dataLen = s2.dataLen)
    (hs : ∀ i, i % 4 ≠ 3 → s1.data i = s2.data i)
    (hf : ∀ i, i % 4 ≠ 3 → f1.data i = f2.data i)
    (width : Nat) (cfg : Config) (startX endX startY endY : Nat) :
    blockCounts s1 f1 width cfg startX endX startY endY =
      blockCounts s2 f2 width cfg startX endX startY endY := by
  unfold blockCounts
  congr 1
  funext accr y
  show List.foldl (fun (acc2 : Nat × Nat) x =>
      let idx := (y * width + x) * 4
      if s1.dataLen ≤ idx + 2 then acc2
      else
        ((if 3 * cfg.pixelDiffThreshold < pixelDiffSum s1 f1 idx then acc2.1 + 1
          else acc2.1), acc2.2 + 1)) accr (List.range' startX (endX - startX)) =
    List.foldl (fun (acc2 : Nat × Nat) x =>
      let idx := (y * width + x) * 4
      if s2.dataLen ≤ idx + 2 then acc2
      else
        ((if 3 * cfg.pixelDiffThreshold < pixelDiffSum s2 f2 idx then acc2.1 + 1
          else acc2.1), acc2.2 + 1)) accr (List.range' startX (endX - startX))
  congr 1
  funext acc2 x
  show (if s1.dataLen ≤ (y * width + x) * 4 + 2 then acc2
    else
      ((if 3 * cfg.pixelDiffThreshold < pixelDiffSum s1 f1 ((y * width + x) * 4)
        then acc2.1 + 1 else acc2.1), acc2.2 + 1)) =
    (if s2.dataLen ≤ (y * width + x) * 4 + 2 then acc2
    else
      ((if 3 * cfg.pixelDiffThreshold < pixelDiffSum s2 f2 ((y * width + x) * 4)
        then acc2.1 + 1 else acc2.1), acc2.2 + 1))
  rw [hsl, pixelDiffSum_alpha hs hf (by omega : (y * width + x) * 4 % 4 = 0)]

/-- Block activity agrees on inputs that differ only in alpha bytes. -/
theorem blockActive_alpha {s1 s2 f1 f2 : Img} (hsl : s1.dataLen = s2.dataLen)
    (hs : ∀ i, i % 4 ≠ 3 → s1.data i = s2.data i)
    (hf : ∀ i, i % 4 ≠ 3 → f1.data i = f2.data i)
    (width height : Nat) (cfg : Config) (bx bY : Nat) :
    blockActive s1 f1 width height cfg bx bY =
      blockActive s2 f2 width height cfg bx bY := by
  simp only [blockActive]
  rw [blockCounts_alpha hsl hs hf]

/-- **C9.** The region analysis reads only the R, G and B channels: two
runs whose screenshot inputs (and whose figma inputs) agree everywhere
except on alpha bytes (buffer indices ≡ 3 mod 4) and have equally long
buffers, with the same width, height and sensitivity, return identical
issue lists. -/
theorem analyze_alpha_blind (s1 s2 f1 f2 : Img) (w h sens : Nat)
    (hsl : s1.dataLen = s2.dataLen) (hfl : f1.dataLen = f2.dataLen)
    (hs : ∀ i, i % 4 ≠ 3 → s1.data i = s2.data i)
    (hf : ∀ i, i % 4 ≠ 3 → f1.data i = f2.data i) :
    analyzeImageDifferences s1 f1 w h sens = analyzeImageDifferences s2 f2 w h sens := by
  simp only [analyzeImageDifferences]
  rw [show (fun i => blockActive s1 f1 w h (sensitivityConfig sens)
        (i % ((w + BLOCK_SIZE - 1) / BLOCK_SIZE))
        (i / ((w + BLOCK_SIZE - 1) / BLOCK_SIZE))) =
      (fun i => blockActive s2 f2 w h (sensitivityConfig sens)
        (i % ((w + BLOCK_SIZE - 1) / BLOCK_SIZE))
        (i / ((w + BLOCK_SIZE - 1) / BLOCK_SIZE))) from
    funext fun i => blockActive_alpha hsl hs hf w h (sensitivityConfig sens) _ _]

/-- **C9, witness.** Flipping only the alpha byte of the 1×1 screenshot
leaves the issue list unchanged. -/
theorem analyze_alpha_blind_witness :
    analyzeImageDifferences unitImg unitImg 1 1 3 =
      analyzeImageDifferences unitImgA unitImg 1 1 3 :=
  analyze_alpha_blind unitImg unitImgA unitImg unitImg 1 1 3 rfl rfl
    (fun i hi => by simp [unitImg, unitImgA, if_neg hi])
    (fun _ _ => rfl)

set_option maxRecDepth 1000000 in
set_option maxHeartbeats 20000000 in
/-- **C1, counterexample.** On the claimed scenario — solid white vs. the
same image with a black 30×30 top-left corner, 100×100, sensitivity 3 —
the single emitted issue has type "Layout", not "Color": the clipped
region is the corner rounded up to the 20-px grid, 40×40 = 1600 px, and
`1600 < 1000` is false. -/
theorem corner_scenario_not_color :
    (analyzeImageDifferences whiteImg cornerImg 100 100 3).map Issue.type ≠
      ["Color"] := by
  decide

set_option maxRecDepth 1000000 in
set_option maxHeartbeats 20000000 in
/-- **C1, amended.** The scenario produces exactly one issue, whose region
is the corner rounded up to the 20-px block grid (x=0, y=0, 40×40), with
severity "Low" (area 1600 ≤ 10000) and type "Layout" (area 1600 ≥ 1000). -/
theorem corner_scenario_amended :
    analyzeImageDifferences whiteImg cornerImg 100 100 3 = [issue100] := by
  decide

end VDiff
